import Mathlib

/-!
Shallow embedding of the `tfsdb-fast-export` repository (sources
`src/tfsdb.py` and `src/fastimport.py`) together with theorems settling
the frozen claims about it.

Conventions of the embedding:
* Python byte strings and text strings are modelled as `List Char`
  (paths, tokens) or `List Nat` (raw bytes);
* Python integers are `Int`;
* `None`-able values are `Option`;
* code that can raise returns `Except String`;
* Python truthiness of the relevant types is made explicit
  (`none` and `0` and the empty string are falsy).
-/

-- ---------------------------------------------------------------------------
-- Python-dict / truthiness helpers
-- ---------------------------------------------------------------------------

/-- Lookup in an association list, modelling a Python dict read
(`m[k]` / `m.get(k)`). -/
def getAssoc {α β : Type} [BEq α] (m : List (α × β)) (k : α) : Option β :=
  match m with
  | [] => none
  | (k', v) :: rest => if k' == k then some v else getAssoc rest k

/-- Update-or-insert in an association list, modelling a Python dict write
(`m[k] = v`): an existing key keeps its position, a new key is appended. -/
def setAssoc {α β : Type} [BEq α] (m : List (α × β)) (k : α) (v : β) : List (α × β) :=
  match m with
  | [] => [(k, v)]
  | (k', v') :: rest =>
    if k' == k then (k', v) :: rest else (k', v') :: setAssoc rest k v

/-- Models `collections.defaultdict(list)` append: `m[k].append(v)`.  An existing
key keeps its position; a new key is appended at the end, modelling the
insertion order of Python dicts. -/
def upsert {α β : Type} [BEq α] (m : List (α × List β)) (k : α) (v : β) : List (α × List β) :=
  match m with
  | [] => [(k, [v])]
  | (k', vs) :: rest =>
    if k' == k then (k', vs ++ [v]) :: rest else (k', vs) :: upsert rest k v

/-- The keys of an association list, in order. -/
def assocKeys {α β : Type} (m : List (α × β)) : List α :=
  m.map Prod.fst

/-- Python truthiness of an optional string (`None` and `""` are falsy). -/
def pyStrTruthy : Option String → Bool
  | none => false
  | some s => s != ""

/-- Python truthiness of an optional character list (`None` and the empty
string are falsy). -/
def pyCharsTruthy : Option (List Char) → Bool
  | none => false
  | some l => !l.isEmpty

/-- Python truthiness of an integer (`0` is falsy). -/
def pyIntTruthy (n : Int) : Bool :=
  n != 0

/-- Python truthiness of an optional integer (`None` and `0` are falsy). -/
def pyOptIntTruthy : Option Int → Bool
  | none => false
  | some n => n != 0

-- ---------------------------------------------------------------------------
-- src/tfsdb.py : tfs_unmangle_path
-- ---------------------------------------------------------------------------

/-- The character-level substitutions of `tfs_unmangle_path`:
`>` becomes `_`, `"` becomes `-`, `|` becomes `%`.  The three chained
`str.replace` calls of the source act on distinct single characters whose
replacements introduce none of the searched characters, so together they
are this per-character map. -/
def unmangleChar (c : Char) : Char :=
  if c = '>' then '_'
  else if c = '"' then '-'
  else if c = '|' then '%'
  else c

/-- Models `tfs_unmangle_path` (src/tfsdb.py:88): apply the three character
replacements, then strip a single trailing backslash if present. -/
def tfs_unmangle_path (s : List Char) : List Char :=
  let tmp := s.map unmangleChar
  if tmp.getLast? = some '\\' then tmp.dropLast else tmp

-- ---------------------------------------------------------------------------
-- src/tfsdb.py : tfs_decompress
-- ---------------------------------------------------------------------------

/-- Models `tfs_decompress` (src/tfsdb.py:102).  The gzip path feeds every block
through one stateful `zlib.decompressobj`; that external primitive is the
parameter `gz`, a function from the block sequence to the inflated block
sequence.  Compression type 0 passes the blocks through, type 1 inflates,
anything else raises. -/
def tfs_decompress (gz : List (List Nat) → List (List Nat)) (compression_type : Int)
    (blocks : List (List Nat)) : Except String (List (List Nat)) :=
  if compression_type = 0 then .ok blocks
  else if compression_type = 1 then .ok (gz blocks)
  else .error "unexpected compression type"

-- ---------------------------------------------------------------------------
-- src/tfsdb.py : MD5ValidatingIterator
-- ---------------------------------------------------------------------------

/-- State of `MD5ValidatingIterator` (src/tfsdb.py:136).  The running
`hashlib.md5()` object is represented by the exact sequence of bytes fed to
it so far (`fed`): an incremental MD5 over updates `b1, …, bn` is by
definition `md5 (b1 ++ … ++ bn)`. -/
structure MD5ValidatingIterator where
  expected_checksum : List Nat
  remaining : List (List Nat)
  fed : List Nat
  context : Option Int
deriving Repr, DecidableEq

/-- Models `MD5ValidatingIterator.__init__`: store the expected checksum and the
block source; the running checksum starts empty. -/
def MD5ValidatingIterator.start (checksum : List Nat) (blocks : List (List Nat))
    (context : Option Int) : MD5ValidatingIterator :=
  ⟨checksum, blocks, [], context⟩

/-- Driving `MD5ValidatingIterator.__next__` to exhaustion: each block is
yielded and absorbed into the running checksum; at `StopIteration` the
digest of everything fed is compared with the expected checksum.  Returns
the yielded blocks and whether the final comparison raised the checksum
mismatch.  `md5` is the external hash primitive. -/
def md5Drain (md5 : List Nat → List Nat) (expected : List Nat) (fed : List Nat) :
    List (List Nat) → List (List Nat) × Bool
  | [] => ([], md5 fed != expected)
  | b :: rest =>
    let r := md5Drain md5 expected (fed ++ b) rest
    (b :: r.1, r.2)

/-- Full iteration of an `MD5ValidatingIterator` from its current state. -/
def MD5ValidatingIterator.drain (md5 : List Nat → List Nat)
    (s : MD5ValidatingIterator) : List (List Nat) × Bool :=
  md5Drain md5 s.expected_checksum s.fed s.remaining

-- ---------------------------------------------------------------------------
-- src/tfsdb.py : FileContentChange
-- ---------------------------------------------------------------------------

/-- Models `FileContentChange` (src/tfsdb.py:169).  `content_blocks` is the block
sequence produced by `content_blocks_cb`; `tempdir_blocks` stands for the
blocks the scratch-directory reader returns for this file id after
`_unpack_deltas_to_tempdir` has materialized the delta chain (the scratch
store and the delta primitive are external collaborators of this part of
the claim). -/
structure FileContentChange where
  id : Int
  file_length : Int
  compressed_length : Int
  compression_type : Int
  content_type : Int
  content_hash : List Nat
  content_blocks : List (List Nat)
  tempdir_blocks : List (List Nat)
deriving Repr, DecidableEq

/-- Models `FileContentChange.content` (src/tfsdb.py:182): select the block source
by content type (1 = full text, decompressed; 2 = delta, read back from the
scratch directory; anything else raises) and wrap it in an
`MD5ValidatingIterator` against `content_hash` with the file id as
context. -/
def FileContentChange.content (gz : List (List Nat) → List (List Nat))
    (fcc : FileContentChange) : Except String MD5ValidatingIterator :=
  if fcc.content_type = 1 then
    match tfs_decompress gz fcc.compression_type fcc.content_blocks with
    | .error e => .error e
    | .ok blocks => .ok (MD5ValidatingIterator.start fcc.content_hash blocks (some fcc.id))
  else if fcc.content_type = 2 then
    .ok (MD5ValidatingIterator.start fcc.content_hash fcc.tempdir_blocks (some fcc.id))
  else
    .error "unexpected content type"

-- ---------------------------------------------------------------------------
-- src/fastimport.py : paths, modes, command constructors
-- ---------------------------------------------------------------------------

/-- Models `check_path` (src/fastimport.py:143): raise `ValueError` if the path is
`None`, empty, or begins with `/`; otherwise return it unchanged. -/
def check_path (path : Option (List Char)) : Except String (List Char) :=
  match path with
  | none => .error "illegal path"
  | some p =>
    if p = [] then .error "illegal path"
    else if p.head? = some '/' then .error "illegal path"
    else .ok p

/-- The `re.sub('\n', '\\n', p)` call inside `format_path`
(src/fastimport.py:158).  The replacement template is the two-character
string backslash-`n`, and `re.sub` processes backslash escapes in its
replacement template, turning it into a single newline character: the
substitution therefore replaces every newline with a newline. -/
def re_sub_newline (p : List Char) : List Char :=
  p.map (fun c => if c = '\n' then '\n' else c)

/-- Models `format_path` (src/fastimport.py:154): if the path contains a newline,
run the (no-op) substitution and quote; else quote when it starts with a
double quote or, with the `quote_spaces` flag, when it contains a space;
otherwise emit it unchanged. -/
def format_path (p : List Char) (quote_spaces : Bool) : List Char :=
  if p.contains '\n' then
    '"' :: re_sub_newline p ++ ['"']
  else if p.head? = some '"' ∨ (quote_spaces ∧ p.contains ' ') then
    '"' :: p ++ ['"']
  else p

/-- Models `FileModifyCommand._format_mode` (src/fastimport.py:81): map the
whitelisted modes to their canonical octal tokens, raise `AssertionError`
for anything else. -/
def format_mode (mode : Int) : Except String String :=
  if mode = 0o755 ∨ mode = 0o100755 then .ok "755"
  else if mode = 0o644 ∨ mode = 0o100644 then .ok "644"
  else if mode = 0o40000 then .ok "040000"
  else if mode = 0o120000 then .ok "120000"
  else if mode = 0o160000 then .ok "160000"
  else .error "Unknown mode"

/-- A constructed `FileModifyCommand` (src/fastimport.py:70).  `dataref` is
an external blob reference, `data` the inline bytes (in the driver, the
materialized block stream). -/
structure FileModifyCommand where
  path : List Char
  mode : Int
  dataref : Option (List Char)
  data : Option (List Nat)
deriving Repr, DecidableEq

/-- Models `FileModifyCommand.__init__`: first demand exactly one of
`dataref`/`data`, then run `check_path` on the path. -/
def FileModifyCommand.init (path : Option (List Char)) (mode : Int)
    (dataref : Option (List Char)) (data : Option (List Nat)) :
    Except String FileModifyCommand :=
  if dataref.isNone = data.isNone then
    .error "please provide either dataref or data"
  else
    match check_path path with
    | .error e => .error e
    | .ok p => .ok ⟨p, mode, dataref, data⟩

/-- A constructed `FileDeleteCommand` (src/fastimport.py:107). -/
structure FileDeleteCommand where
  path : List Char
deriving Repr, DecidableEq

/-- Models `FileDeleteCommand.__init__`: run `check_path` on the path. -/
def FileDeleteCommand.init (path : Option (List Char)) :
    Except String FileDeleteCommand :=
  match check_path path with
  | .error e => .error e
  | .ok p => .ok ⟨p⟩

/-- A constructed `FileCopyCommand` (src/fastimport.py:115). -/
structure FileCopyCommand where
  src_path : List Char
  dest_path : List Char
deriving Repr, DecidableEq

/-- Models `FileCopyCommand.__init__`: run `check_path` on both paths. -/
def FileCopyCommand.init (src_path dest_path : Option (List Char)) :
    Except String FileCopyCommand :=
  match check_path src_path with
  | .error e => .error e
  | .ok s =>
    match check_path dest_path with
    | .error e => .error e
    | .ok d => .ok ⟨s, d⟩

/-- A constructed `FileRenameCommand` (src/fastimport.py:124). -/
structure FileRenameCommand where
  old_path : List Char
  new_path : List Char
deriving Repr, DecidableEq

/-- Models `FileRenameCommand.__init__`: run `check_path` on both paths. -/
def FileRenameCommand.init (old_path new_path : Option (List Char)) :
    Except String FileRenameCommand :=
  match check_path old_path with
  | .error e => .error e
  | .ok o =>
    match check_path new_path with
    | .error e => .error e
    | .ok n => .ok ⟨o, n⟩

-- ---------------------------------------------------------------------------
-- src/tfsdb.py : branch partitioning and Changeset.merges
-- ---------------------------------------------------------------------------

/-- The two configuration hooks used when partitioning rows by branch
(src/cfg-empty.py; held by `ExporterHooks`). -/
structure Hooks where
  branch_extract : List Char → Option String × Option (List Char)
  file_filter : String → List Char → Bool

/-- The loop body of `split_and_filter_file_rows` (src/tfsdb.py:127-132):
determine the row's branch and relative path from `branch_extract` applied
to its unmangled full path; skip the row when the branch is falsy or when
its truthy relpath is rejected by `file_filter`; otherwise append the row
under its branch. -/
def splitStep {ρ : Type} (hooks : Hooks) (full_path_hook : ρ → List Char)
    (acc : List (String × List ρ)) (row : ρ) : List (String × List ρ) :=
  let br := hooks.branch_extract (tfs_unmangle_path (full_path_hook row))
  if !pyStrTruthy br.1 ∨
     (pyCharsTruthy br.2 ∧ !hooks.file_filter (br.1.getD "") (br.2.getD [])) then
    acc
  else
    upsert acc (br.1.getD "") row

/-- Models `split_and_filter_file_rows` (src/tfsdb.py:121) with
`return_rel_paths = False`: group the rows into a branch-keyed dict by
folding `splitStep` over them. -/
def split_and_filter_file_rows {ρ : Type} (hooks : Hooks) (full_path_hook : ρ → List Char)
    (rows : List ρ) : List (String × List ρ) :=
  rows.foldl (splitStep hooks full_path_hook) []

/-- A row of the merge-history query (src/tfsdb.py:335): only the columns
`Changeset.merges` reads. -/
structure MergeRow where
  SourceFullPath : List Char
  SourceVersionTo : Int
deriving Repr, DecidableEq

/-- Python `max` over a list of integers: `None` on the empty list,
otherwise the left fold of binary `max` over the elements. -/
def pyMax : List Int → Option Int
  | [] => none
  | x :: xs => some (xs.foldl max x)

/-- Models `Changeset.merges` (src/tfsdb.py:421): partition the changeset's merge
rows by source branch, then per branch take the largest `SourceVersionTo`
strictly below the changeset id, or `None` when no such version exists. -/
def Changeset.merges (id : Int) (hooks : Hooks) (mergerows : List MergeRow) :
    List (String × Option Int) :=
  (split_and_filter_file_rows hooks (fun r => r.SourceFullPath) mergerows).map
    (fun p => (p.1, pyMax ((p.2.map (fun r => r.SourceVersionTo)).filter (fun v => v < id))))

-- ---------------------------------------------------------------------------
-- src/tfsdb.py : mark allocation (fastexport_commands, lines 666-686)
-- ---------------------------------------------------------------------------

/-- The mark-allocation state closed over by `generate_mark`
(src/tfsdb.py:666): the `(changeset, branch)` mark table, the changeset id
and mark of the previous allocation, and the last mark issued per
branch. -/
structure MarkState where
  marks : List ((Int × String) × Int)
  last_changesetId : Option Int
  last_issued : Option Int
  last_per_branch : List (String × Int)
deriving Repr, DecidableEq

/-- The initial allocator state: empty tables, no changeset seen. -/
def markState0 : MarkState :=
  ⟨[], none, none, []⟩

/-- Models `generate_mark` (src/tfsdb.py:671): on a new changeset id the mark is
`changesetId * 100`, on a repeated id the previous mark plus one (a
`TypeError` if no mark was ever issued, which cannot happen from the
initial state); the mark is recorded under `(changesetId, branch)` and
under `branch`, and returned with the new state. -/
def generate_mark (st : MarkState) (branch : String) (changesetId : Int) :
    Except String (Int × MarkState) :=
  let issued : Except String Int :=
    if some changesetId ≠ st.last_changesetId then .ok (changesetId * 100)
    else
      match st.last_issued with
      | some v => .ok (v + 1)
      | none => .error "TypeError"
  match issued with
  | .error e => .error e
  | .ok mark =>
    .ok (mark,
      { marks := setAssoc st.marks (changesetId, branch) mark,
        last_changesetId := some changesetId,
        last_issued := some mark,
        last_per_branch := setAssoc st.last_per_branch branch mark })

/-- A sequence of `generate_mark` calls threaded through the state,
returning the issued marks in order. -/
def generate_marks_run : MarkState → List (String × Int) → Except String (List Int × MarkState)
  | st, [] => .ok ([], st)
  | st, (b, cid) :: rest =>
    match generate_mark st b cid with
    | .error e => .error e
    | .ok (m, st') =>
      match generate_marks_run st' rest with
      | .error e => .error e
      | .ok (ms, stf) => .ok (m :: ms, stf)

-- ---------------------------------------------------------------------------
-- src/tfsdb.py : merge-parent resolution (fastexport_commands, lines 702-707)
-- ---------------------------------------------------------------------------

/-- One turn of the merge-resolution loop in `fastexport_commands`
(src/tfsdb.py:702): for a pair `(branch, version)` from `cs.merges()`, a
truthy `version` reads `marks[version, branch]` (a `KeyError` when
absent), a falsy one reads `marks_last_issued_per_branch[branch]` (again a
`KeyError` when absent). -/
def resolve_merge_mark (marks : List ((Int × String) × Int))
    (last_per_branch : List (String × Int)) (branch : String) (version : Option Int) :
    Except String Int :=
  if pyOptIntTruthy version then
    match getAssoc marks (version.getD 0, branch) with
    | some m => .ok m
    | none => .error "KeyError"
  else
    match getAssoc last_per_branch branch with
    | some m => .ok m
    | none => .error "KeyError"

-- ---------------------------------------------------------------------------
-- src/tfsdb.py : per-changeset command emission (fastexport_commands, 696-732)
-- ---------------------------------------------------------------------------

/-- A row of the per-changeset file query (src/tfsdb.py:318): only the
columns that decide between a content change and a delete. -/
structure VersionRow where
  DeletionId : Int
  FileId : Option Int
deriving Repr, DecidableEq

/-- One entry of `Changeset.rowsRelPaths`: a file row paired with its
branch-relative path. -/
structure RowRelPath where
  row : VersionRow
  relpath : List Char
deriving Repr, DecidableEq

/-- The row selection of `Changeset.changes` (src/tfsdb.py:397): rows with
a falsy `DeletionId` and a truthy `FileId`, yielded in row order. -/
def Changeset.changeRows (rows : List RowRelPath) : List RowRelPath :=
  rows.filter (fun r => !pyIntTruthy r.row.DeletionId && pyOptIntTruthy r.row.FileId)

/-- The row selection of `Changeset.deletes` (src/tfsdb.py:413): rows with
a truthy `DeletionId` and a truthy `FileId`, yielded in row order. -/
def Changeset.deleteRows (rows : List RowRelPath) : List RowRelPath :=
  rows.filter (fun r => pyIntTruthy r.row.DeletionId && pyOptIntTruthy r.row.FileId)

/-- Models `git_mangle_path` (src/tfsdb.py:651): replace backslashes with forward
slashes. -/
def git_mangle_path (p : List Char) : List Char :=
  p.map (fun c => if c = '\\' then '/' else c)

/-- The commands `fastexport_commands` yields, as far as their kind and
payload matter here. -/
inductive FECmd where
  | progress (msg : List Char)
  | commit (ref : List Char) (mark : Int) (merges : List Int)
  | filedelete (c : FileDeleteCommand)
  | filemodify (c : FileModifyCommand)
deriving Repr, DecidableEq

/-- Effectful map over a list, stopping at the first raised exception
(Python loop semantics around constructors that may raise). -/
def mapExcept {α β : Type} (f : α → Except String β) : List α → Except String (List β)
  | [] => .ok []
  | x :: xs =>
    match f x with
    | .error e => .error e
    | .ok y =>
      match mapExcept f xs with
      | .error e => .error e
      | .ok ys => .ok (y :: ys)

/-- The block of `fastexport_commands` for one changeset
(src/tfsdb.py:700-732): a progress command, the commit (mark and merge
marks already resolved upstream), then one `FileDeleteCommand` per
`cs.deletes()` row, then one `FileModifyCommand` (mode `0o644`, inline
data) per `cs.changes()` row, whose body bytes `content_of` supplies
(after materialization, optional rewrite, or `no_content` emptying). -/
def changeset_commands (progressMsg : List Char) (branchRef : List Char) (mark : Int)
    (merge_marks : List Int) (content_of : RowRelPath → List Nat)
    (rows : List RowRelPath) : Except String (List FECmd) :=
  match mapExcept
      (fun f => (FileDeleteCommand.init (some (git_mangle_path f.relpath))).map FECmd.filedelete)
      (Changeset.deleteRows rows) with
  | .error e => .error e
  | .ok dels =>
    match mapExcept
        (fun f =>
          (FileModifyCommand.init (some (git_mangle_path f.relpath)) 0o644 none
            (some (content_of f))).map FECmd.filemodify)
        (Changeset.changeRows rows) with
    | .error e => .error e
    | .ok mods =>
      .ok (FECmd.progress progressMsg :: FECmd.commit branchRef mark merge_marks :: dels ++ mods)

/-- Recognizer for file-delete commands in the emitted stream. -/
def FECmd.isFiledelete : FECmd → Bool
  | .filedelete _ => true
  | _ => false

/-- Recognizer for file-modify commands in the emitted stream. -/
def FECmd.isFilemodify : FECmd → Bool
  | .filemodify _ => true
  | _ => false

-- ---------------------------------------------------------------------------
-- Shared lemmas
-- ---------------------------------------------------------------------------

theorem getAssoc_setAssoc_self {α β : Type} [BEq α] [LawfulBEq α]
    (m : List (α × β)) (k : α) (v : β) :
    getAssoc (setAssoc m k v) k = some v := by
  induction m with
  | nil => simp [setAssoc, getAssoc]
  | cons hd tl ih =>
    obtain ⟨k', v'⟩ := hd
    by_cases h : k' == k
    · simp [setAssoc, getAssoc, h]
    · simp [setAssoc, getAssoc, h, ih]

theorem md5Drain_eq (md5 : List Nat → List Nat) (d : List Nat) (bs : List (List Nat)) :
    ∀ fed : List Nat, md5Drain md5 d fed bs = (bs, md5 (fed ++ bs.flatten) != d) := by
  induction bs with
  | nil => intro fed; simp [md5Drain]
  | cons b rest ih => intro fed; simp [md5Drain, ih]

-- ---------------------------------------------------------------------------
-- Claim theorems
-- ---------------------------------------------------------------------------

/-- C1: iterating the MD5-validating stream constructed from an expected
digest `d` and byte blocks `bs` yields exactly the blocks of `bs` in order
and raises the checksum mismatch at end-of-stream iff the digest of the
concatenated blocks differs from `d`; and `FileContentChange.content`
wraps every materialized content stream in this validator against the
declared `content_hash` with a fresh running checksum, so iterating an
emitted content stream whose bytes diverge from the declared hash is
fatal. -/
theorem c1_md5_validation :
    (∀ (md5 : List Nat → List Nat) (d : List Nat) (bs : List (List Nat)) (ctx : Option Int),
      (MD5ValidatingIterator.start d bs ctx).drain md5 = (bs, md5 bs.flatten != d)) ∧
    (∀ (gz : List (List Nat) → List (List Nat)) (md5 : List Nat → List Nat)
        (fcc : FileContentChange) (it : MD5ValidatingIterator),
      FileContentChange.content gz fcc = .ok it →
        it.expected_checksum = fcc.content_hash ∧ it.fed = [] ∧
        it.drain md5 = (it.remaining, md5 it.remaining.flatten != fcc.content_hash)) := by
  have hdrain : ∀ (md5 : List Nat → List Nat) (d : List Nat) (bs : List (List Nat))
      (ctx : Option Int),
      (MD5ValidatingIterator.start d bs ctx).drain md5 = (bs, md5 bs.flatten != d) := by
    intro md5 d bs ctx
    simp [MD5ValidatingIterator.drain, MD5ValidatingIterator.start, md5Drain_eq]
  refine ⟨hdrain, ?_⟩
  intro gz md5 fcc it h
  have hof : ∀ blocks : List (List Nat),
      it = MD5ValidatingIterator.start fcc.content_hash blocks (some fcc.id) →
      it.expected_checksum = fcc.content_hash ∧ it.fed = [] ∧
      it.drain md5 = (it.remaining, md5 it.remaining.flatten != fcc.content_hash) := by
    intro blocks he
    subst he
    refine ⟨rfl, rfl, ?_⟩
    simpa [MD5ValidatingIterator.start] using
      hdrain md5 fcc.content_hash blocks (some fcc.id)
  unfold FileContentChange.content at h
  by_cases h1 : fcc.content_type = 1
  · rw [if_pos h1] at h
    cases hd : tfs_decompress gz fcc.compression_type fcc.content_blocks with
    | error e => rw [hd] at h; simp at h
    | ok blocks =>
      rw [hd] at h
      injection h with h'
      exact hof blocks h'.symm
  · rw [if_neg h1] at h
    by_cases h2 : fcc.content_type = 2
    · rw [if_pos h2] at h
      injection h with h'
      exact hof fcc.tempdir_blocks h'.symm
    · rw [if_neg h2] at h
      simp at h

/-- Witness for C1: a concrete full-text, uncompressed content change is
wrapped against its declared hash, and iterating it yields its blocks with
the mismatch flag decided by the hash comparison. -/
theorem c1_md5_validation_witness :
    (MD5ValidatingIterator.start [9] [[1, 2]] (some 5)).expected_checksum = [9] ∧
    (MD5ValidatingIterator.start [9] [[1, 2]] (some 5)).fed = [] ∧
    (MD5ValidatingIterator.start [9] [[1, 2]] (some 5)).drain (fun _ => [9]) =
      ((MD5ValidatingIterator.start [9] [[1, 2]] (some 5)).remaining,
        (fun _ => ([9] : List Nat))
            (MD5ValidatingIterator.start [9] [[1, 2]] (some 5)).remaining.flatten
          != ([9] : List Nat)) :=
  c1_md5_validation.2 (fun bl => bl) (fun _ => [9]) ⟨5, 2, 2, 0, 1, [9], [[1, 2]], []⟩
    (MD5ValidatingIterator.start [9] [[1, 2]] (some 5)) rfl

/-- C2: `generate_mark` returns `changesetId * 100` when the changeset id
differs from the previously seen one and the previous mark plus one when
it is the same, records the returned mark under `(changesetId, branch)`
and under `branch`, and the concrete sequence for changeset 7 on branches
main, dev, main yields 700, 701, 702 with both final main lookups 702. -/
theorem c2_mark_allocator :
    (∀ (st : MarkState) (b : String) (cid : Int), some cid ≠ st.last_changesetId →
      ∃ st', generate_mark st b cid = .ok (cid * 100, st') ∧
        getAssoc st'.marks (cid, b) = some (cid * 100) ∧
        getAssoc st'.last_per_branch b = some (cid * 100) ∧
        st'.last_changesetId = some cid ∧ st'.last_issued = some (cid * 100)) ∧
    (∀ (st : MarkState) (b : String) (cid m : Int),
      st.last_changesetId = some cid → st.last_issued = some m →
      ∃ st', generate_mark st b cid = .ok (m + 1, st') ∧
        getAssoc st'.marks (cid, b) = some (m + 1) ∧
        getAssoc st'.last_per_branch b = some (m + 1) ∧
        st'.last_changesetId = some cid ∧ st'.last_issued = some (m + 1)) ∧
    (generate_marks_run markState0 [("main", 7), ("dev", 7), ("main", 7)]).map
        (fun r => (r.1, getAssoc r.2.marks (7, "main"), getAssoc r.2.last_per_branch "main"))
      = .ok ([700, 701, 702], some 702, some 702) := by
  refine ⟨?_, ?_, by rfl⟩
  · intro st b cid h
    refine ⟨⟨setAssoc st.marks (cid, b) (cid * 100), some cid, some (cid * 100),
             setAssoc st.last_per_branch b (cid * 100)⟩,
            ?_, getAssoc_setAssoc_self _ _ _, getAssoc_setAssoc_self _ _ _, rfl, rfl⟩
    simp only [generate_mark]
    rw [if_pos h]
  · intro st b cid m h1 h2
    refine ⟨⟨setAssoc st.marks (cid, b) (m + 1), some cid, some (m + 1),
             setAssoc st.last_per_branch b (m + 1)⟩,
            ?_, getAssoc_setAssoc_self _ _ _, getAssoc_setAssoc_self _ _ _, rfl, rfl⟩
    have hne : ¬ some cid ≠ st.last_changesetId := by
      rw [h1]
      exact fun hh => hh rfl
    simp only [generate_mark]
    rw [if_neg hne, h2]

/-- Witness for C2: both allocation behaviours at concrete states. -/
theorem c2_mark_allocator_witness :
    (∃ st', generate_mark markState0 "main" 7 = .ok (7 * 100, st') ∧
      getAssoc st'.marks (7, "main") = some (7 * 100) ∧
      getAssoc st'.last_per_branch "main" = some (7 * 100) ∧
      st'.last_changesetId = some 7 ∧ st'.last_issued = some (7 * 100)) ∧
    (∃ st', generate_mark ⟨[((7, "main"), 700)], some 7, some 700, [("main", 700)]⟩ "dev" 7
        = .ok (700 + 1, st') ∧
      getAssoc st'.marks (7, "dev") = some (700 + 1) ∧
      getAssoc st'.last_per_branch "dev" = some (700 + 1) ∧
      st'.last_changesetId = some 7 ∧ st'.last_issued = some (700 + 1)) :=
  ⟨c2_mark_allocator.1 markState0 "main" 7 (by decide),
   c2_mark_allocator.2.1 ⟨[((7, "main"), 700)], some 7, some 700, [("main", 700)]⟩
     "dev" 7 700 rfl rfl⟩

/-- C3 counterexample: with no mark recorded for changeset 5 on branch
main but a last-issued mark 700 on main, the driver's merge resolution
raises a `KeyError` instead of substituting 700, refuting the claim that a
missing `(src_id, branch)` mark falls back to the per-branch last mark. -/
theorem c3_merge_resolution_counterexample :
    resolve_merge_mark [] [("main", 700)] "main" (some 5) = .error "KeyError" ∧
    resolve_merge_mark [] [("main", 700)] "main" (some 5) ≠ .ok 700 := by
  refine ⟨rfl, ?_⟩
  intro h
  simp [resolve_merge_mark, pyOptIntTruthy, getAssoc] at h

/-- C3 (amended): merge resolution uses the recorded mark for
`(src_id, branch)` when `src_id` is truthy (non-null and nonzero) and
raises a `KeyError` when no such mark is recorded; only when `src_id` is
falsy does it substitute the last mark issued on the branch, raising a
`KeyError` when that branch has no last mark either. -/
theorem c3_merge_resolution (marks : List ((Int × String) × Int))
    (lpb : List (String × Int)) (b : String) (v : Option Int) :
    (∀ m, pyOptIntTruthy v = true → getAssoc marks (v.getD 0, b) = some m →
      resolve_merge_mark marks lpb b v = .ok m) ∧
    (pyOptIntTruthy v = true → getAssoc marks (v.getD 0, b) = none →
      resolve_merge_mark marks lpb b v = .error "KeyError") ∧
    (∀ m, pyOptIntTruthy v = false → getAssoc lpb b = some m →
      resolve_merge_mark marks lpb b v = .ok m) ∧
    (pyOptIntTruthy v = false → getAssoc lpb b = none →
      resolve_merge_mark marks lpb b v = .error "KeyError") := by
  refine ⟨?_, ?_, ?_, ?_⟩
  · intro m ht hg; simp [resolve_merge_mark, ht, hg]
  · intro ht hg; simp [resolve_merge_mark, ht, hg]
  · intro m ht hg; simp [resolve_merge_mark, ht, hg]
  · intro ht hg; simp [resolve_merge_mark, ht, hg]

/-- Witness for C3 (amended): the recorded-mark path and the null-source
fallback path at concrete tables. -/
theorem c3_merge_resolution_witness :
    resolve_merge_mark [((3, "b"), 42)] [] "b" (some 3) = .ok 42 ∧
    resolve_merge_mark [((3, "b"), 42)] [("b", 9)] "b" none = .ok 9 :=
  ⟨(c3_merge_resolution [((3, "b"), 42)] [] "b" (some 3)).1 42 rfl rfl,
   (c3_merge_resolution [((3, "b"), 42)] [("b", 9)] "b" none).2.2.1 9 rfl rfl⟩

/-- C4 counterexample: on a path consisting of two backslashes, each
application of `tfs_unmangle_path` strips one trailing backslash, so the
function is not idempotent on every string. -/
theorem c4_unmangle_counterexample :
    tfs_unmangle_path (tfs_unmangle_path ['\\', '\\']) ≠ tfs_unmangle_path ['\\', '\\'] := by
  decide

theorem unmangleChar_idem (c : Char) : unmangleChar (unmangleChar c) = unmangleChar c := by
  by_cases h1 : c = '>'
  · subst h1; decide
  by_cases h2 : c = '"'
  · subst h2; decide
  by_cases h3 : c = '|'
  · subst h3; decide
  simp [unmangleChar, h1, h2, h3]

theorem map_unmangleChar_idem (l : List Char) :
    (l.map unmangleChar).map unmangleChar = l.map unmangleChar := by
  induction l with
  | nil => rfl
  | cons c cs ih => simp [unmangleChar_idem, ih]

theorem tfs_unmangle_path_map_fixed (s : List Char) :
    (tfs_unmangle_path s).map unmangleChar = tfs_unmangle_path s := by
  have h : tfs_unmangle_path s =
      if (s.map unmangleChar).getLast? = some '\\' then (s.map unmangleChar).dropLast
      else s.map unmangleChar := rfl
  rw [h]
  split
  · rw [← List.map_dropLast, map_unmangleChar_idem, List.map_dropLast]
  · exact map_unmangleChar_idem s

theorem tfs_unmangle_path_of_fixed (l : List Char) (hm : l.map unmangleChar = l)
    (hl : l.getLast? ≠ some '\\') : tfs_unmangle_path l = l := by
  have h : tfs_unmangle_path l =
      if (l.map unmangleChar).getLast? = some '\\' then (l.map unmangleChar).dropLast
      else l.map unmangleChar := rfl
  rw [h, hm, if_neg hl]

/-- C4 (amended): `tfs_unmangle_path` is idempotent on every string whose
unmangled form does not end in a backslash (equivalently, on every input
that does not end in two or more backslashes); the character replacements
are always idempotent and only the trailing-backslash strip can differ on
a second pass. -/
theorem c4_unmangle_idempotent (s : List Char)
    (h : (tfs_unmangle_path s).getLast? ≠ some '\\') :
    tfs_unmangle_path (tfs_unmangle_path s) = tfs_unmangle_path s :=
  tfs_unmangle_path_of_fixed (tfs_unmangle_path s) (tfs_unmangle_path_map_fixed s) h

/-- Witness for C4 (amended): idempotence at a concrete mangled path. -/
theorem c4_unmangle_idempotent_witness :
    tfs_unmangle_path (tfs_unmangle_path ['a', '>', 'b', '\\']) =
      tfs_unmangle_path ['a', '>', 'b', '\\'] :=
  c4_unmangle_idempotent ['a', '>', 'b', '\\'] (by decide)

/-- C5: the serializer's mode formatter emits the canonical token for each
whitelisted mode (0o755/0o100755, 0o644/0o100644, 0o40000, 0o120000,
0o160000) and fails on every other integer mode. -/
theorem c5_format_mode (m : Int) :
    ((m = 0o755 ∨ m = 0o100755) → format_mode m = .ok "755") ∧
    ((m = 0o644 ∨ m = 0o100644) → format_mode m = .ok "644") ∧
    (m = 0o40000 → format_mode m = .ok "040000") ∧
    (m = 0o120000 → format_mode m = .ok "120000") ∧
    (m = 0o160000 → format_mode m = .ok "160000") ∧
    (¬(m = 0o755 ∨ m = 0o100755 ∨ m = 0o644 ∨ m = 0o100644 ∨
        m = 0o40000 ∨ m = 0o120000 ∨ m = 0o160000) →
      format_mode m = .error "Unknown mode") := by
  refine ⟨?_, ?_, ?_, ?_, ?_, ?_⟩
  · rintro (h | h) <;> subst h <;> rfl
  · rintro (h | h) <;> subst h <;> rfl
  · rintro h; subst h; rfl
  · rintro h; subst h; rfl
  · rintro h; subst h; rfl
  · intro h
    push_neg at h
    obtain ⟨h1, h2, h3, h4, h5, h6, h7⟩ := h
    simp [format_mode, h1, h2, h3, h4, h5, h6, h7]

/-- Witness for C5: a whitelisted mode in both spellings and a rejected
mode. -/
theorem c5_format_mode_witness :
    format_mode 0o755 = .ok "755" ∧
    format_mode 0o100644 = .ok "644" ∧
    format_mode 0 = .error "Unknown mode" :=
  ⟨(c5_format_mode 0o755).1 (Or.inl rfl),
   (c5_format_mode 0o100644).2.1 (Or.inr rfl),
   (c5_format_mode 0).2.2.2.2.2 (by decide)⟩

/-- C6: on a path containing a newline the serializer wraps the path in
double quotes but leaves the newline byte unescaped, because the
replacement template of `re.sub` is itself unescaped to a newline; the
claim (and the spec) say every newline is escaped, so the code diverges
from them at this input. -/
theorem c6_format_path_newline_unescaped :
    format_path ['a', '\n', 'b'] false = ['"', 'a', '\n', 'b', '"'] ∧
    '\n' ∈ format_path ['a', '\n', 'b'] false ∧
    format_path ['a', '\n', 'b'] false ≠ ['"', 'a', '\\', 'n', 'b', '"'] := by
  refine ⟨by decide, by decide, by decide⟩

theorem check_path_ok (p : Option (List Char)) (q : List Char)
    (h : check_path p = .ok q) : p = some q ∧ q ≠ [] ∧ q.head? ≠ some '/' := by
  cases p with
  | none => exact absurd h (by simp [check_path])
  | some l =>
    simp only [check_path] at h
    split at h
    · exact absurd h (by simp)
    · split at h
      · exact absurd h (by simp)
      · rename_i h1 h2
        injection h with h'
        subst h'
        exact ⟨rfl, h1, h2⟩

theorem check_path_error_iff (p : Option (List Char)) :
    (∃ e, check_path p = .error e) ↔
      (p = none ∨ p = some [] ∨ ∃ r, p = some ('/' :: r)) := by
  cases p with
  | none => simp [check_path]
  | some l =>
    simp only [check_path, Option.some.injEq, reduceCtorEq, false_or]
    by_cases h1 : l = []
    · subst h1
      simp
    · rw [if_neg h1]
      by_cases h2 : l.head? = some '/'
      · rw [if_pos h2]
        cases l with
        | nil => exact absurd rfl h1
        | cons c cs =>
          simp only [List.head?_cons, Option.some.injEq] at h2
          subst h2
          simp
      · rw [if_neg h2]
        constructor
        · rintro ⟨e, he⟩
          exact absurd he (by simp)
        · rintro (h | ⟨r, hr⟩)
          · exact absurd h h1
          · subst hr
            exact absurd rfl h2

/-- C7: `check_path` fails exactly on a missing path, an empty path, or a
path starting with a slash, and otherwise returns the path unchanged; and
every successfully constructed file-modify, file-delete, file-copy and
file-rename command carries only nonempty paths that do not start with a
slash, since each constructor runs the check. -/
theorem c7_check_path (p : Option (List Char)) :
    ((∃ e, check_path p = .error e) ↔
      (p = none ∨ p = some [] ∨ ∃ r, p = some ('/' :: r))) ∧
    (∀ q, check_path p = .ok q → p = some q) ∧
    (∀ path mode dr d c, FileModifyCommand.init path mode dr d = .ok c →
      c.path ≠ [] ∧ c.path.head? ≠ some '/') ∧
    (∀ path c, FileDeleteCommand.init path = .ok c →
      c.path ≠ [] ∧ c.path.head? ≠ some '/') ∧
    (∀ sp dp c, FileCopyCommand.init sp dp = .ok c →
      (c.src_path ≠ [] ∧ c.src_path.head? ≠ some '/') ∧
      (c.dest_path ≠ [] ∧ c.dest_path.head? ≠ some '/')) ∧
    (∀ op np c, FileRenameCommand.init op np = .ok c →
      (c.old_path ≠ [] ∧ c.old_path.head? ≠ some '/') ∧
      (c.new_path ≠ [] ∧ c.new_path.head? ≠ some '/')) := by
  refine ⟨check_path_error_iff p, ?_, ?_, ?_, ?_, ?_⟩
  · intro q h
    exact (check_path_ok p q h).1
  · intro path mode dr d c h
    unfold FileModifyCommand.init at h
    split at h
    · exact absurd h (by simp)
    · split at h
      · exact absurd h (by simp)
      · rename_i q hq
        injection h with h'
        subst h'
        exact (check_path_ok path q hq).2
  · intro path c h
    unfold FileDeleteCommand.init at h
    split at h
    · exact absurd h (by simp)
    · rename_i q hq
      injection h with h'
      subst h'
      exact (check_path_ok path q hq).2
  · intro sp dp c h
    unfold FileCopyCommand.init at h
    split at h
    · exact absurd h (by simp)
    · rename_i s hs
      split at h
      · exact absurd h (by simp)
      · rename_i d hd
        injection h with h'
        subst h'
        exact ⟨(check_path_ok sp s hs).2, (check_path_ok dp d hd).2⟩
  · intro op np c h
    unfold FileRenameCommand.init at h
    split at h
    · exact absurd h (by simp)
    · rename_i o ho
      split at h
      · exact absurd h (by simp)
      · rename_i n hn
        injection h with h'
        subst h'
        exact ⟨(check_path_ok op o ho).2, (check_path_ok np n hn).2⟩

/-- Witness for C7: the error characterization at a slash-leading path and
the constructor guarantee at a concrete file-modify command. -/
theorem c7_check_path_witness :
    (∃ e, check_path (some ['/', 'a']) = .error e) ∧
    (FileModifyCommand.mk ['a'] 420 none (some []) ).path ≠ [] ∧
    (FileModifyCommand.mk ['a'] 420 none (some []) ).path.head? ≠ some '/' :=
  ⟨(c7_check_path (some ['/', 'a'])).1.mpr (Or.inr (Or.inr ⟨['a'], rfl⟩)),
   (c7_check_path (some ['a'])).2.2.1 (some ['a']) 420 none (some [])
     (FileModifyCommand.mk ['a'] 420 none (some [])) rfl⟩

/-- C10 counterexample: with exactly one content source given (a dataref
and no data) but an empty path, `FileModifyCommand` construction raises
the path error instead of succeeding, refuting the claim that exactly one
source suffices for every path and mode. -/
theorem c10_filemodify_counterexample :
    FileModifyCommand.init (some []) 420 (some ['r']) none = .error "illegal path" ∧
    (FileModifyCommand.init (some []) 420 (some ['r']) none).toOption = none := by
  exact ⟨rfl, rfl⟩

/-- C10 (amended): `FileModifyCommand` construction raises when both of
`dataref`/`data` are given and when neither is given, for every path and
mode; when exactly one is given it succeeds, holding the given source,
iff the path passes `check_path`, and otherwise propagates the path
error. -/
theorem c10_filemodify_sources (path : Option (List Char)) (mode : Int)
    (dr : Option (List Char)) (d : Option (List Nat)) :
    (dr.isNone = d.isNone →
      FileModifyCommand.init path mode dr d = .error "please provide either dataref or data") ∧
    (dr.isNone ≠ d.isNone → ∀ q, check_path path = .ok q →
      FileModifyCommand.init path mode dr d = .ok ⟨q, mode, dr, d⟩) ∧
    (dr.isNone ≠ d.isNone → ∀ e, check_path path = .error e →
      FileModifyCommand.init path mode dr d = .error e) := by
  refine ⟨?_, ?_, ?_⟩
  · intro h
    simp [FileModifyCommand.init, h]
  · intro h q hq
    simp [FileModifyCommand.init, h, hq]
  · intro h e he
    simp [FileModifyCommand.init, h, he]

/-- Witness for C10 (amended): all three behaviours at concrete
arguments. -/
theorem c10_filemodify_sources_witness :
    FileModifyCommand.init (some ['a']) 420 none none
      = .error "please provide either dataref or data" ∧
    FileModifyCommand.init (some ['a']) 420 none (some [1])
      = .ok ⟨['a'], 420, none, some [1]⟩ ∧
    FileModifyCommand.init (some []) 420 none (some [1]) = .error "illegal path" :=
  ⟨(c10_filemodify_sources (some ['a']) 420 none none).1 rfl,
   (c10_filemodify_sources (some ['a']) 420 none (some [1])).2.1 (by decide) ['a'] rfl,
   (c10_filemodify_sources (some []) 420 none (some [1])).2.2 (by decide) "illegal path" rfl⟩

theorem mapExcept_ok_forall {α β : Type} (f : α → Except String β) :
    ∀ (xs : List α) (ys : List β), mapExcept f xs = .ok ys →
      ∀ y ∈ ys, ∃ x, f x = .ok y := by
  intro xs
  induction xs with
  | nil =>
    intro ys h y hy
    simp only [mapExcept] at h
    injection h with h'
    subst h'
    simp at hy
  | cons x xs ih =>
    intro ys h y hy
    simp only [mapExcept] at h
    split at h
    · exact absurd h (by simp)
    · rename_i b hb
      split at h
      · exact absurd h (by simp)
      · rename_i bs hbs
        injection h with h'
        subst h'
        rcases List.mem_cons.mp hy with hy | hy
        · exact ⟨x, hy ▸ hb⟩
        · exact ih bs hbs y hy

theorem FECmd.not_both (y : FECmd) :
    y.isFiledelete = true → y.isFilemodify = true → False := by
  intro h1 h2
  cases y <;> simp [FECmd.isFiledelete, FECmd.isFilemodify] at h1 h2

/-- C9: in the command stream the export driver produces for a single
changeset, every file-delete command is emitted strictly before every
file-modify command, whatever the ordering of the underlying source
rows. -/
theorem c9_deletes_before_modifies
    (msg ref : List Char) (mark : Int) (mm : List Int)
    (content_of : RowRelPath → List Nat) (rows : List RowRelPath)
    (out : List FECmd) (i j : Nat) (ci cj : FECmd)
    (h : changeset_commands msg ref mark mm content_of rows = .ok out)
    (hi : out[i]? = some ci) (hci : ci.isFiledelete = true)
    (hj : out[j]? = some cj) (hcj : cj.isFilemodify = true) :
    i < j := by
  unfold changeset_commands at h
  split at h
  · exact absurd h (by simp)
  · rename_i dels hdels
    split at h
    · exact absurd h (by simp)
    · rename_i mods hmods
      injection h with h'
      subst h'
      have hdel_shape : ∀ y ∈ dels, y.isFiledelete = true := by
        intro y hy
        obtain ⟨x, hx⟩ := mapExcept_ok_forall _ _ dels hdels y hy
        cases hcp : FileDeleteCommand.init (some (git_mangle_path x.relpath)) with
        | error e => rw [hcp] at hx; exact absurd hx (by simp [Except.map])
        | ok c =>
          rw [hcp] at hx
          simp only [Except.map] at hx
          injection hx with hx'
          rw [← hx']
          rfl
      have hmod_shape : ∀ y ∈ mods, y.isFilemodify = true := by
        intro y hy
        obtain ⟨x, hx⟩ := mapExcept_ok_forall _ _ mods hmods y hy
        cases hcp : FileModifyCommand.init (some (git_mangle_path x.relpath)) 0o644 none
            (some (content_of x)) with
        | error e => rw [hcp] at hx; exact absurd hx (by simp [Except.map])
        | ok c =>
          rw [hcp] at hx
          simp only [Except.map] at hx
          injection hx with hx'
          rw [← hx']
          rfl
      replace hi : ([FECmd.progress msg, FECmd.commit ref mark mm]
          ++ (dels ++ mods))[i]? = some ci := hi
      replace hj : ([FECmd.progress msg, FECmd.commit ref mark mm]
          ++ (dels ++ mods))[j]? = some cj := hj
      have hpre : ∀ (k : Nat) (c : FECmd),
          ([FECmd.progress msg, FECmd.commit ref mark mm] ++ (dels ++ mods))[k]? = some c →
          c.isFiledelete = false ∧ c.isFilemodify = false ∨ 2 ≤ k := by
        intro k c hk
        by_cases hlt : k < 2
        · left
          rw [List.getElem?_append, if_pos (by simpa using hlt)] at hk
          have hmem := List.getElem?_mem hk
          simp only [List.mem_cons, List.not_mem_nil, or_false] at hmem
          rcases hmem with h | h <;> subst h <;> exact ⟨rfl, rfl⟩
        · right; omega
      have hi2 : 2 ≤ i := by
        rcases hpre i ci hi with ⟨hf, _⟩ | hge
        · rw [hci] at hf; exact absurd hf (by simp)
        · exact hge
      have hj2 : 2 ≤ j := by
        rcases hpre j cj hj with ⟨_, hf⟩ | hge
        · rw [hcj] at hf; exact absurd hf (by simp)
        · exact hge
      rw [List.getElem?_append_right (by simpa using hi2)] at hi
      rw [List.getElem?_append_right (by simpa using hj2)] at hj
      have hib : i - 2 < dels.length := by
        by_contra hge
        push_neg at hge
        rw [List.getElem?_append_right (by simpa using hge)] at hi
        exact FECmd.not_both ci hci (hmod_shape ci (List.getElem?_mem hi))
      have hjb : dels.length ≤ j - 2 := by
        by_contra hlt
        push_neg at hlt
        rw [List.getElem?_append, if_pos (by simpa using hlt)] at hj
        exact FECmd.not_both cj (hdel_shape cj (List.getElem?_mem hj)) hcj
      omega

/-- Witness for C9: in a concrete two-row changeset whose source rows put
the content change before the delete, the delete command still precedes
the modify command in the emitted stream. -/
theorem c9_deletes_before_modifies_witness :
    changeset_commands ['m'] ['b'] 100 [] (fun _ => [])
        [⟨⟨0, some 4⟩, ['c']⟩, ⟨⟨1, some 5⟩, ['d']⟩]
      = .ok [FECmd.progress ['m'], FECmd.commit ['b'] 100 [],
             FECmd.filedelete ⟨['d']⟩,
             FECmd.filemodify ⟨['c'], 420, none, some []⟩] ∧
    2 < 3 :=
  ⟨rfl,
   c9_deletes_before_modifies ['m'] ['b'] 100 [] (fun _ => [])
     [⟨⟨0, some 4⟩, ['c']⟩, ⟨⟨1, some 5⟩, ['d']⟩]
     [FECmd.progress ['m'], FECmd.commit ['b'] 100 [],
      FECmd.filedelete ⟨['d']⟩,
      FECmd.filemodify ⟨['c'], 420, none, some []⟩]
     2 3 (FECmd.filedelete ⟨['d']⟩) (FECmd.filemodify ⟨['c'], 420, none, some []⟩)
     rfl rfl rfl rfl rfl⟩

theorem foldl_max_base_le (xs : List Int) : ∀ x : Int, x ≤ xs.foldl max x := by
  induction xs with
  | nil => intro x; exact le_refl x
  | cons y ys ih => intro x; exact le_trans (le_max_left x y) (ih (max x y))

theorem foldl_max_mem (xs : List Int) :
    ∀ x : Int, xs.foldl max x = x ∨ xs.foldl max x ∈ xs := by
  induction xs with
  | nil => intro x; exact Or.inl rfl
  | cons y ys ih =>
    intro x
    show ys.foldl max (max x y) = x ∨ ys.foldl max (max x y) ∈ y :: ys
    rcases ih (max x y) with h | h
    · rcases max_choice x y with hm | hm
      · exact Or.inl (h.trans hm)
      · refine Or.inr ?_
        rw [h, hm]
        exact List.mem_cons_self y ys
    · exact Or.inr (List.mem_cons_of_mem y h)

theorem foldl_max_le (xs : List Int) : ∀ x w : Int, w ∈ xs → w ≤ xs.foldl max x := by
  induction xs with
  | nil => intro x w hw; simp at hw
  | cons y ys ih =>
    intro x w hw
    show w ≤ ys.foldl max (max x y)
    rcases List.mem_cons.mp hw with h | h
    · subst h
      exact le_trans (le_max_right x w) (foldl_max_base_le ys (max x w))
    · exact ih (max x y) w h

theorem pyMax_spec (l : List Int) (m : Int) (h : pyMax l = some m) :
    m ∈ l ∧ ∀ w ∈ l, w ≤ m := by
  cases l with
  | nil => simp [pyMax] at h
  | cons x xs =>
    simp only [pyMax, Option.some.injEq] at h
    subst h
    constructor
    · rcases foldl_max_mem xs x with h | h
      · rw [h]; exact List.mem_cons_self x xs
      · exact List.mem_cons_of_mem x h
    · intro w hw
      rcases List.mem_cons.mp hw with h | h
      · subst h; exact foldl_max_base_le xs w
      · exact foldl_max_le xs x w h

theorem pyMax_none_iff (l : List Int) : pyMax l = none ↔ l = [] := by
  cases l <;> simp [pyMax]

theorem assocKeys_upsert {α β : Type} [BEq α] [LawfulBEq α]
    (m : List (α × List β)) (k : α) (v : β) :
    assocKeys (upsert m k v)
      = if k ∈ assocKeys m then assocKeys m else assocKeys m ++ [k] := by
  induction m with
  | nil => simp [upsert, assocKeys]
  | cons hd tl ih =>
    obtain ⟨k', vs⟩ := hd
    by_cases h : k' == k
    · have hke : k' = k := eq_of_beq h
      subst hke
      simp [upsert, assocKeys, h]
    · have hne : k' ≠ k := fun hh => h (by simp [hh])
      have hcons : assocKeys ((k', vs) :: tl) = k' :: assocKeys tl := rfl
      have hup : assocKeys (upsert ((k', vs) :: tl) k v)
          = k' :: assocKeys (upsert tl k v) := by
        simp [upsert, assocKeys, h]
      rw [hup, ih, hcons]
      have hmemiff : k ∈ k' :: assocKeys tl ↔ k ∈ assocKeys tl := by
        simp [Ne.symm hne]
      by_cases hmem : k ∈ assocKeys tl
      · rw [if_pos hmem, if_pos (hmemiff.mpr hmem)]
      · rw [if_neg hmem, if_neg (fun hh => hmem (hmemiff.mp hh))]
        rfl

theorem assocKeys_upsert_nodup {α β : Type} [BEq α] [LawfulBEq α]
    (m : List (α × List β)) (k : α) (v : β) (h : (assocKeys m).Nodup) :
    (assocKeys (upsert m k v)).Nodup := by
  rw [assocKeys_upsert]
  by_cases hmem : k ∈ assocKeys m
  · rw [if_pos hmem]; exact h
  · rw [if_neg hmem]
    simp [List.nodup_append, h, hmem]

theorem split_step_nodup {ρ : Type} (hooks : Hooks) (fph : ρ → List Char)
    (acc : List (String × List ρ)) (row : ρ) (h : (assocKeys acc).Nodup) :
    (assocKeys (splitStep hooks fph acc row)).Nodup := by
  simp only [splitStep]
  split
  · exact h
  · exact assocKeys_upsert_nodup _ _ _ h

theorem split_and_filter_nodup_keys {ρ : Type} (hooks : Hooks) (fph : ρ → List Char)
    (rows : List ρ) : (assocKeys (split_and_filter_file_rows hooks fph rows)).Nodup := by
  have hgen : ∀ (rs : List ρ) (acc : List (String × List ρ)), (assocKeys acc).Nodup →
      (assocKeys (rs.foldl (splitStep hooks fph) acc)).Nodup := by
    intro rs
    induction rs with
    | nil => intro acc h; exact h
    | cons r rest ih =>
      intro acc h
      exact ih _ (split_step_nodup hooks fph acc r h)
  exact hgen rows [] (by simp [assocKeys])

theorem filter_map_fst_nil {α β γ : Type} [BEq α] [LawfulBEq α]
    (g : α × β → γ) (m : List (α × β)) (b : α) (hb : b ∉ assocKeys m) :
    (m.map (fun p => (p.1, g p))).filter (fun p => p.1 == b) = [] := by
  induction m with
  | nil => rfl
  | cons hd tl ih =>
    obtain ⟨k', vs⟩ := hd
    simp only [assocKeys, List.map_cons, List.mem_cons] at hb
    push_neg at hb
    simp only [List.map_cons, List.filter_cons]
    have hcond : (k' == b) = false := by
      simp only [beq_eq_false_iff_ne]
      exact Ne.symm hb.1
    rw [if_neg (by simp [hcond])]
    exact ih hb.2

theorem filter_map_fst_getAssoc {α β γ : Type} [BEq α] [LawfulBEq α]
    (g : α × β → γ) (m : List (α × β)) (b : α) (rs : β)
    (hnd : (assocKeys m).Nodup) (hget : getAssoc m b = some rs) :
    (m.map (fun p => (p.1, g p))).filter (fun p => p.1 == b) = [(b, g (b, rs))] := by
  induction m with
  | nil => simp [getAssoc] at hget
  | cons hd tl ih =>
    obtain ⟨k', vs⟩ := hd
    simp only [getAssoc] at hget
    simp only [assocKeys, List.map_cons, List.nodup_cons] at hnd
    split at hget
    · rename_i hk
      injection hget with h'
      subst h'
      have hke : k' = b := eq_of_beq hk
      subst hke
      simp only [List.map_cons, List.filter_cons]
      rw [if_pos (by simp)]
      rw [filter_map_fst_nil g tl k' hnd.1]
    · rename_i hk
      simp only [List.map_cons, List.filter_cons]
      rw [if_neg (by simp [hk])]
      exact ih hnd.2 hget

/-- C8: for every source branch present in the branch partition of a
changeset's merge rows, `Changeset.merges` yields exactly one pair for
that branch, carrying the maximum `SourceVersionTo` over the branch's
rows strictly below the changeset id, or `none` when no such row
exists. -/
theorem c8_merges_unique_max (mergerows : List MergeRow) (hooks : Hooks) (id : Int)
    (b : String) (rs : List MergeRow)
    (hget : getAssoc (split_and_filter_file_rows hooks (fun r => r.SourceFullPath) mergerows) b
      = some rs) :
    ((Changeset.merges id hooks mergerows).filter (fun p => p.1 == b))
      = [(b, pyMax ((rs.map (fun r => r.SourceVersionTo)).filter (fun v => v < id)))] ∧
    (pyMax ((rs.map (fun r => r.SourceVersionTo)).filter (fun v => v < id)) = none ↔
      (rs.map (fun r => r.SourceVersionTo)).filter (fun v => v < id) = []) ∧
    (∀ m, pyMax ((rs.map (fun r => r.SourceVersionTo)).filter (fun v => v < id)) = some m →
      m ∈ (rs.map (fun r => r.SourceVersionTo)).filter (fun v => v < id) ∧
      ∀ w ∈ (rs.map (fun r => r.SourceVersionTo)).filter (fun v => v < id), w ≤ m) := by
  refine ⟨?_, pyMax_none_iff _, fun m hm => pyMax_spec _ m hm⟩
  unfold Changeset.merges
  exact filter_map_fst_getAssoc
    (fun p => pyMax ((p.2.map (fun r => r.SourceVersionTo)).filter (fun v => v < id)))
    (split_and_filter_file_rows hooks (fun r => r.SourceFullPath) mergerows) b rs
    (split_and_filter_nodup_keys hooks (fun r => r.SourceFullPath) mergerows) hget

/-- Witness for C8: a one-row merge table mapped to branch B yields the
single pair with the maximal eligible source version. -/
theorem c8_merges_unique_max_witness :
    ((Changeset.merges 5 ⟨fun _ => (some "B", none), fun _ _ => true⟩
        [⟨['x'], 3⟩]).filter (fun p => p.1 == "B"))
      = [("B", pyMax (([(⟨['x'], 3⟩ : MergeRow)].map
          (fun r => r.SourceVersionTo)).filter (fun v => v < 5)))] :=
  (c8_merges_unique_max [⟨['x'], 3⟩] ⟨fun _ => (some "B", none), fun _ _ => true⟩ 5 "B"
    [⟨['x'], 3⟩] rfl).1
